import Mathlib

/-!
Verification development for the PEPT trajectory-extraction pipeline
(`pept_scripts`: `peptml_minimal.py`, `peptml_analysis.py`,
`peptml_user.py`, `peptml_find_parameters.py`).  The scripts in the
repository only call the pipeline (windowing of LoRs into overlapping
samples, cutpoint extraction, HDBSCAN-style density clustering, and the
two-pass orchestration); the pipeline itself is specified but not shipped
with the repository, so it is modelled here from the specification and the
scripts' call sites, with exact rational arithmetic in place of floating
point and squared distances in place of Euclidean distances (for
nonnegative thresholds, `dist ≤ d` iff `dist² ≤ d²`, so the retention
behaviour is unchanged).
-/

namespace PeptML

/-- Modelled from the spec: the error taxonomy of §7.  Only
`ConfigurationError` aborts a run; geometry problems are absorbed locally
and stream exhaustion is normal termination, so neither appears as an
`Except` error in the model. -/
inductive PeptError where
  | ConfigurationError : PeptError
deriving DecidableEq

/-! ## Windowing (LineSampleStream, §4.1)

`countFrom` is the operational sample count: starting from `r` unread
lines, `next_sample()` succeeds while at least `sample_size` lines remain
and advances the cursor by `sample_size - overlap`.  The fuel argument
(always instantiated with the total line count) makes the recursion
structural. -/

/-- Modelled from the spec: the cursor semantics of
`LineSampleStream.next_sample` — one sample consumed per step while
`sample_size ≤ remaining`, cursor advanced by `sample_size - overlap`. -/
def countFrom (s o : Nat) : Nat → Nat → Nat
  | 0, _ => 0
  | fuel + 1, r => if o < s ∧ s ≤ r then countFrom s o fuel (r - (s - o)) + 1 else 0

/-- Modelled from the spec: `number_of_samples` of a dataset with `N`
lines, sample size `s` and overlap `o`, defined operationally by running
the cursor from the start of the dataset. -/
def numberOfSamples (N s o : Nat) : Nat := countFrom s o N N

/-- The window of sample index `i`: `sample_size` consecutive elements
starting at `i * (sample_size - overlap)`. -/
def window (xs : List α) (s o i : Nat) : List α := (xs.drop (i * (s - o))).take s

/-- Modelled from the spec: the full list of samples produced by
iterating `next_sample` until exhaustion. -/
def windows (xs : List α) (s o : Nat) : List (List α) :=
  (List.range (numberOfSamples xs.length s o)).map (window xs s o)

/-- Modelled from the spec: windowing validation — fails with
`ConfigurationError` if `overlap ≥ sample_size` or `sample_size ≤ 0`,
before any sample is produced. -/
def samplesOf (xs : List α) (s o : Nat) : Except PeptError (List (List α)) :=
  if o ≥ s ∨ s ≤ 0 then .error .ConfigurationError else .ok (windows xs s o)

theorem countFrom_closed (s o : Nat) (h : o < s) :
    ∀ fuel r, r ≤ fuel → countFrom s o fuel r = (r - o) / (s - o) := by
  intro fuel
  induction fuel with
  | zero =>
    intro r hr
    interval_cases r
    have : (0 : Nat) - o = 0 := by omega
    simp [countFrom, this]
  | succ n ih =>
    intro r hr
    by_cases hs : s ≤ r
    · have hstep : r - (s - o) ≤ n := by omega
      have := ih (r - (s - o)) hstep
      have hro : s - o ≤ r - o := by omega
      have hsub : r - (s - o) - o = r - o - (s - o) := by omega
      calc countFrom s o (n + 1) r = countFrom s o n (r - (s - o)) + 1 := by
            simp [countFrom, h, hs]
        _ = (r - (s - o) - o) / (s - o) + 1 := by rw [this]
        _ = (r - o - (s - o)) / (s - o) + 1 := by rw [hsub]
        _ = (r - o - (s - o) + (s - o)) / (s - o) := by
            rw [Nat.add_div_right _ (by omega : 0 < s - o)]
        _ = (r - o) / (s - o) := by rw [Nat.sub_add_cancel hro]
    · have hlt : r - o < s - o := by omega
      simp [countFrom, hs, Nat.div_eq_of_lt hlt]

theorem numberOfSamples_eq (N s o : Nat) (h : o < s) :
    numberOfSamples N s o = (N - o) / (s - o) :=
  countFrom_closed s o h N N le_rfl

/-- C1 — For every line dataset with `N` total lines and every valid
configuration `sample_size > overlap ≥ 0`, `number_of_samples` equals
`floor ((N - overlap) / (sample_size - overlap))` and equals `0` whenever
`sample_size > N` (in particular at `N ∈ {0, 1, sample_size - 1}`); at
`N = overlap + k * (sample_size - overlap)` it equals `k`. -/
theorem number_of_samples_closed_form (N s o : Nat) (h : o < s) :
    numberOfSamples N s o = (N - o) / (s - o) ∧
    (s > N → numberOfSamples N s o = 0) ∧
    (∀ k, 0 < k → numberOfSamples (o + k * (s - o)) s o = k) := by
  refine ⟨numberOfSamples_eq N s o h, ?_, ?_⟩
  · intro hN
    rw [numberOfSamples_eq N s o h]
    exact Nat.div_eq_of_lt (by omega)
  · intro k hk
    rw [numberOfSamples_eq _ s o h, Nat.add_sub_cancel_left,
      Nat.mul_div_cancel k (by omega : 0 < s - o)]

/-- Witness for C1 at the configuration of `peptml_minimal.py`
(`sample_size = 400`, `overlap = 200`) on 1000 lines, and the
`sample_size > N` case at `N = 399`. -/
theorem number_of_samples_closed_form_witness :
    numberOfSamples 1000 400 200 = (1000 - 200) / (400 - 200) ∧
    numberOfSamples 399 400 200 = 0 := by
  refine ⟨(number_of_samples_closed_form 1000 400 200 (by decide)).1, ?_⟩
  exact (number_of_samples_closed_form 399 400 200 (by decide)).2.1 (by decide)

/-! ## Geometry and cutpoint extraction (CutpointExtractor, §4.2) -/

/-- A 3D point / vector with exact rational coordinates. -/
abbrev Vec3 := ℚ × ℚ × ℚ

def vadd (a b : Vec3) : Vec3 := (a.1 + b.1, a.2.1 + b.2.1, a.2.2 + b.2.2)

def vsub (a b : Vec3) : Vec3 := (a.1 - b.1, a.2.1 - b.2.1, a.2.2 - b.2.2)

def smul (c : ℚ) (a : Vec3) : Vec3 := (c * a.1, c * a.2.1, c * a.2.2)

def dot (a b : Vec3) : ℚ := a.1 * b.1 + a.2.1 * b.2.1 + a.2.2 * b.2.2

/-- Squared Euclidean norm. -/
def norm2 (a : Vec3) : ℚ := dot a a

/-- Midpoint of two points. -/
def vmid (a b : Vec3) : Vec3 := smul (1 / 2) (vadd a b)

/-- Squared Euclidean distance between two points. -/
def dist2 (a b : Vec3) : ℚ := norm2 (vsub a b)

/-- Modelled from the spec: a Line of Response, given by its two 3D
endpoints, immutable once read. -/
structure Line3 where
  p0 : Vec3
  p1 : Vec3
deriving DecidableEq

/-- Direction vector of a line. -/
def Line3.dir (l : Line3) : Vec3 := vsub l.p1 l.p0

/-- Modelled from the spec: the skew-line closest-approach computation of
CutpointExtractor.  Returns the midpoint of the segment of closest
approach together with the squared perpendicular distance; returns `none`
for a parallel/coincident (degenerate) pair, recognised by a vanishing
Gram determinant. -/
def closestApproach (l₁ l₂ : Line3) : Option (Vec3 × ℚ) :=
  let u := l₁.dir
  let v := l₂.dir
  let w₀ := vsub l₁.p0 l₂.p0
  let a := dot u u
  let b := dot u v
  let c := dot v v
  let d := dot u w₀
  let e := dot v w₀
  let den := a * c - b * b
  if den = 0 then none
  else
    let sc := (b * e - c * d) / den
    let tc := (a * e - b * d) / den
    let q₁ := vadd l₁.p0 (smul sc u)
    let q₂ := vadd l₂.p0 (smul tc v)
    some (vmid q₁ q₂, dist2 q₁ q₂)

/-- Modelled from the spec: a cutpoint — the closest-approach midpoint of
a pair of LoRs, tagged with the (squared) pairwise line-to-line
distance. -/
structure Cutpoint where
  point : Vec3
  dist2 : ℚ
deriving DecidableEq

/-- All unordered pairs of lines of a sample, in deterministic
first-index-major order. -/
def linePairs : List Line3 → List (Line3 × Line3)
  | [] => []
  | x :: xs => (xs.map (fun y => (x, y))) ++ linePairs xs

/-- The cutpoint a single pair contributes under threshold `d`
(squared comparison): `none` when the pair is degenerate or farther than
`max_distance`. -/
def pairCutpoint (d : ℚ) (pr : Line3 × Line3) : Option Cutpoint :=
  match closestApproach pr.1 pr.2 with
  | none => none
  | some (p, dd) => if dd ≤ d * d then some ⟨p, dd⟩ else none

/-- Whether a pair of lines is degenerate (parallel/coincident). -/
def degeneratePair (pr : Line3 × Line3) : Bool :=
  (closestApproach pr.1 pr.2).isNone

/-- Modelled from the spec: one extraction pass over all pairs of a
sample, retaining each non-degenerate pair's closest-approach midpoint iff
its distance is within `max_distance` (inclusive), and counting — not
raising — the degenerate pairs that are skipped. -/
def extractStep (d : ℚ) (acc : List Cutpoint × Nat) (pr : Line3 × Line3) :
    List Cutpoint × Nat :=
  match closestApproach pr.1 pr.2 with
  | none => (acc.1, acc.2 + 1)
  | some (p, dd) => if dd ≤ d * d then (acc.1 ++ [⟨p, dd⟩], acc.2) else acc

/-- Modelled from the spec: CutpointExtractor on one sample — the retained
cutpoints together with the count of skipped degenerate pairs. -/
def extractWithCount (lines : List Line3) (d : ℚ) : List Cutpoint × Nat :=
  (linePairs lines).foldl (extractStep d) ([], 0)

/-- The retained cutpoints of a sample. -/
def extractCutpoints (lines : List Line3) (d : ℚ) : List Cutpoint :=
  (extractWithCount lines d).1

/-- The number of degenerate pairs skipped in a sample. -/
def skippedPairs (lines : List Line3) (d : ℚ) : Nat :=
  (extractWithCount lines d).2

theorem extract_foldl_spec (d : ℚ) :
    ∀ (ps : List (Line3 × Line3)) (acc : List Cutpoint × Nat),
      ps.foldl (extractStep d) acc =
        (acc.1 ++ ps.filterMap (pairCutpoint d),
         acc.2 + ps.countP degeneratePair) := by
  intro ps
  induction ps with
  | nil => intro acc; simp
  | cons hd tl ih =>
    intro acc
    rw [List.foldl_cons, ih]
    rcases hca : closestApproach hd.1 hd.2 with - | ⟨p, dd⟩
    · simp [extractStep, pairCutpoint, degeneratePair, hca, List.countP_cons]
      omega
    · by_cases hdd : dd ≤ d * d <;>
        simp [extractStep, pairCutpoint, degeneratePair, hca, hdd, List.countP_cons]

theorem extractCutpoints_eq (lines : List Line3) (d : ℚ) :
    extractCutpoints lines d = (linePairs lines).filterMap (pairCutpoint d) := by
  simp [extractCutpoints, extractWithCount, extract_foldl_spec]

theorem skippedPairs_eq (lines : List Line3) (d : ℚ) :
    skippedPairs lines d = (linePairs lines).countP degeneratePair := by
  simp [skippedPairs, extractWithCount, extract_foldl_spec]

theorem length_filterMap_countP (f : α → Option β) :
    ∀ ps : List α, (ps.filterMap f).length = ps.countP (fun x => (f x).isSome) := by
  intro ps
  induction ps with
  | nil => simp
  | cons hd tl ih =>
    rcases h : f hd with - | b <;>
      simp [List.filterMap_cons, List.countP_cons, h, ih]

theorem linePairs_of_short (lines : List Line3) (h : lines.length < 2) :
    linePairs lines = [] := by
  match lines with
  | [] => rfl
  | [x] => rfl
  | a :: b :: rest => exact absurd h (by simp)

/-- C2 — For every sample and every `max_distance`, every cutpoint
retained by the extractor has its recorded pairwise (squared) distance at
most `max_distance²` (unconditionally), and the boundary is inclusive: any
non-degenerate pair of the sample whose closest-approach distance equals
`max_distance` exactly yields a retained cutpoint. -/
theorem cutpoint_distance_invariant (lines : List Line3) (d : ℚ) :
    (∀ cp ∈ extractCutpoints lines d, cp.dist2 ≤ d * d) ∧
    (∀ (pr : Line3 × Line3) (p : Vec3) (dd : ℚ),
      pr ∈ linePairs lines → closestApproach pr.1 pr.2 = some (p, dd) →
      dd = d * d → (⟨p, dd⟩ : Cutpoint) ∈ extractCutpoints lines d) := by
  constructor
  · intro cp hcp
    rw [extractCutpoints_eq] at hcp
    obtain ⟨pr', -, hpr'⟩ := List.mem_filterMap.1 hcp
    unfold pairCutpoint at hpr'
    rcases h' : closestApproach pr'.1 pr'.2 with - | ⟨p', dd'⟩ <;> rw [h'] at hpr'
    · exact absurd hpr' (by simp)
    · by_cases hdd : dd' ≤ d * d
      · simp only [hdd, if_pos] at hpr'
        obtain rfl := Option.some.inj hpr'
        exact hdd
      · simp [hdd] at hpr'
  · intro pr p dd hmem hca hb
    rw [extractCutpoints_eq]
    refine List.mem_filterMap.2 ⟨pr, hmem, ?_⟩
    unfold pairCutpoint
    rw [hca]
    simp [hb]

/-- Witness for C2: two perpendicular skew lines at distance exactly 1,
with `max_distance = 1` — the invariant holds for the sample and the
boundary pair is retained. -/
theorem cutpoint_distance_invariant_witness :
    (∀ cp ∈ extractCutpoints
        [⟨(0, 0, 0), (1, 0, 0)⟩, ⟨(0, 0, 1), (0, 1, 1)⟩] 1, cp.dist2 ≤ 1 * 1) ∧
    (⟨((0 : ℚ), (0 : ℚ), (1 / 2 : ℚ)), (1 : ℚ)⟩ : Cutpoint) ∈ extractCutpoints
        [⟨(0, 0, 0), (1, 0, 0)⟩, ⟨(0, 0, 1), (0, 1, 1)⟩] 1 :=
  ⟨(cutpoint_distance_invariant
      [⟨(0, 0, 0), (1, 0, 0)⟩, ⟨(0, 0, 1), (0, 1, 1)⟩] 1).1,
   (cutpoint_distance_invariant
      [⟨(0, 0, 0), (1, 0, 0)⟩, ⟨(0, 0, 1), (0, 1, 1)⟩] 1).2
    (⟨(0, 0, 0), (1, 0, 0)⟩, ⟨(0, 0, 1), (0, 1, 1)⟩)
    ((0 : ℚ), (0 : ℚ), (1 / 2 : ℚ)) 1
    (by simp [linePairs])
    (by norm_num [closestApproach, Line3.dir, vsub, vadd, smul, dot, dist2, norm2, vmid])
    (by norm_num)⟩

/-- C7 — The extractor is total on degenerate geometry: every
parallel/coincident pair is skipped and counted (the skip count equals the
number of degenerate pairs, and every retained cutpoint comes from a
non-degenerate retained pair), and a sample with fewer than 2 lines yields
zero cutpoints rather than an error. -/
theorem degenerate_pairs_skipped_not_fatal (lines : List Line3) (d : ℚ) :
    skippedPairs lines d = (linePairs lines).countP degeneratePair ∧
    (extractCutpoints lines d).length =
      (linePairs lines).countP (fun pr => (pairCutpoint d pr).isSome) ∧
    (lines.length < 2 → extractCutpoints lines d = [] ∧ skippedPairs lines d = 0) := by
  refine ⟨skippedPairs_eq lines d, ?_, ?_⟩
  · rw [extractCutpoints_eq, length_filterMap_countP]
  · intro h2
    have hp := linePairs_of_short lines h2
    rw [extractCutpoints_eq, skippedPairs_eq, hp]
    simp

/-- Witness for C7 at a one-line sample: no cutpoints, no skips. -/
theorem degenerate_pairs_skipped_not_fatal_witness :
    extractCutpoints [⟨(0, 0, 0), (1, 0, 0)⟩] 1 = [] ∧
    skippedPairs [⟨(0, 0, 0), (1, 0, 0)⟩] 1 = 0 :=
  (degenerate_pairs_skipped_not_fatal [⟨(0, 0, 0), (1, 0, 0)⟩] 1).2.2 (by decide)

/-! ## Density clustering (DensityClusterer, §4.3)

The clusterer canonicalises its input into lexicographic point order, so
that its MST tie-breaking by point index is reproducible and its output is
independent of the input permutation, then follows the spec's algorithm:
core distances, mutual-reachability metric, minimum spanning tree, and a
stability-based flat extraction (modelled by cutting the MST at each
candidate density threshold — removing the heaviest edges first — and
selecting the cut of maximal modelled stability). -/

/-- Lexicographic order on 3D points: the canonical processing order of
the clusterer. -/
def ptLe (p q : Vec3) : Prop :=
  p.1 < q.1 ∨ (p.1 = q.1 ∧ (p.2.1 < q.2.1 ∨ (p.2.1 = q.2.1 ∧ p.2.2 ≤ q.2.2)))

instance : DecidableRel ptLe := fun p q => by
  unfold ptLe; exact inferInstance

instance : IsTotal Vec3 ptLe where
  total p q := by
    unfold ptLe
    rcases lt_trichotomy p.1 q.1 with h | h | h
    · exact Or.inl (Or.inl h)
    · rcases lt_trichotomy p.2.1 q.2.1 with h2 | h2 | h2
      · exact Or.inl (Or.inr ⟨h, Or.inl h2⟩)
      · rcases le_total p.2.2 q.2.2 with h3 | h3
        · exact Or.inl (Or.inr ⟨h, Or.inr ⟨h2, h3⟩⟩)
        · exact Or.inr (Or.inr ⟨h.symm, Or.inr ⟨h2.symm, h3⟩⟩)
      · exact Or.inr (Or.inr ⟨h.symm, Or.inl h2⟩)
    · exact Or.inr (Or.inl h)

instance : IsTrans Vec3 ptLe where
  trans p q r hpq hqr := by
    unfold ptLe at *
    obtain h1 | ⟨e1, h1⟩ := hpq <;> obtain g1 | ⟨f1, g1⟩ := hqr
    · exact Or.inl (h1.trans g1)
    · exact Or.inl (lt_of_lt_of_eq h1 f1)
    · exact Or.inl (lt_of_eq_of_lt e1 g1)
    · refine Or.inr ⟨e1.trans f1, ?_⟩
      obtain h2 | ⟨e2, h2⟩ := h1 <;> obtain g2 | ⟨f2, g2⟩ := g1
      · exact Or.inl (h2.trans g2)
      · exact Or.inl (lt_of_lt_of_eq h2 f2)
      · exact Or.inl (lt_of_eq_of_lt e2 g2)
      · exact Or.inr ⟨e2.trans f2, h2.trans g2⟩

instance : IsAntisymm Vec3 ptLe where
  antisymm p q hpq hqp := by
    unfold ptLe at hpq hqp
    have e1 : p.1 = q.1 := by
      rcases hpq with h | ⟨e, -⟩
      · rcases hqp with h' | ⟨e', -⟩
        · exact absurd (h.trans h') (lt_irrefl _)
        · exact e'.symm
      · exact e
    have hpq2 : p.2.1 < q.2.1 ∨ (p.2.1 = q.2.1 ∧ p.2.2 ≤ q.2.2) := by
      rcases hpq with h | ⟨-, h⟩
      · exact absurd h (by rw [e1]; exact lt_irrefl _)
      · exact h
    have hqp2 : q.2.1 < p.2.1 ∨ (q.2.1 = p.2.1 ∧ q.2.2 ≤ p.2.2) := by
      rcases hqp with h | ⟨-, h⟩
      · exact absurd h (by rw [e1]; exact lt_irrefl _)
      · exact h
    have e2 : p.2.1 = q.2.1 := by
      rcases hpq2 with h | ⟨e, -⟩
      · rcases hqp2 with h' | ⟨e', -⟩
        · exact absurd (h.trans h') (lt_irrefl _)
        · exact e'.symm
      · exact e
    have h3 : p.2.2 ≤ q.2.2 := by
      rcases hpq2 with h | ⟨-, h⟩
      · exact absurd h (by rw [e2]; exact lt_irrefl _)
      · exact h
    have h3' : q.2.2 ≤ p.2.2 := by
      rcases hqp2 with h | ⟨-, h⟩
      · exact absurd h (by rw [e2]; exact lt_irrefl _)
      · exact h
    have e3 : p.2.2 = q.2.2 := le_antisymm h3 h3'
    exact Prod.ext e1 (Prod.ext e2 e3)

/-- Modelled from the spec: canonicalisation of a point set into the
deterministic lexicographic processing order. -/
def canon (ps : List Vec3) : List Vec3 := List.insertionSort ptLe ps

theorem canon_perm_eq (ps qs : List Vec3) (h : ps.Perm qs) : canon ps = canon qs :=
  List.eq_of_perm_of_sorted
    (((List.perm_insertionSort ptLe ps).trans h).trans
      (List.perm_insertionSort ptLe qs).symm)
    (List.sorted_insertionSort ptLe ps) (List.sorted_insertionSort ptLe qs)

/-- Modelled from the spec: configuration of the HDBSCAN-style density
clusterer. -/
structure HDBSCANClusterer where
  min_cluster_size : Nat
  allow_single_cluster : Bool
deriving DecidableEq

/-- Modelled from the spec: squared core distance of a point — its
distance to its `k`-th nearest neighbour among the sample's points (the
point itself being the 0th), clamped to the farthest neighbour when the
sample has at most `k` points. -/
def coreDist2 (cs : List Vec3) (k : Nat) (p : Vec3) : ℚ :=
  let ds := List.insertionSort (· ≤ ·) (cs.map (dist2 p))
  ds.getD k (ds.getLastD 0)

/-- Modelled from the spec: squared mutual-reachability metric
`max (core p) (core q) (dist p q)`. -/
def mreach2 (cs : List Vec3) (k : Nat) (p q : Vec3) : ℚ :=
  max (max (coreDist2 cs k p) (coreDist2 cs k q)) (dist2 p q)

/-- The `i`-th point of the canonical list. -/
def getPt (cs : List Vec3) (i : Nat) : Vec3 := cs.getD i (0, 0, 0)

/-- Mutual-reachability weight of an edge between canonical indices. -/
def edgeW (cs : List Vec3) (k : Nat) (e : Nat × Nat) : ℚ :=
  mreach2 cs k (getPt cs e.1) (getPt cs e.2)

/-- Modelled from the spec: lexicographic comparison of candidate MST
edges — by weight first, then by the endpoint indices in canonical order;
this is the "ties broken by original point index" requirement. -/
def edgeLe (w : Nat × Nat → ℚ) (e f : Nat × Nat) : Prop :=
  w e < w f ∨ (w e = w f ∧ (e.1 < f.1 ∨ (e.1 = f.1 ∧ e.2 ≤ f.2)))

instance (w : Nat × Nat → ℚ) : DecidableRel (edgeLe w) := fun e f => by
  unfold edgeLe; exact inferInstance

/-- The `edgeLe`-least element of a candidate edge list. -/
def pickEdge (w : Nat × Nat → ℚ) : List (Nat × Nat) → Option (Nat × Nat)
  | [] => none
  | e :: es => some (es.foldl (fun b f => if edgeLe w b f then b else f) e)

/-- One Prim step chooses the `edgeLe`-least tree-to-rest edge; the fuel
always suffices because each step moves one vertex into the tree. -/
def primAux (w : Nat × Nat → ℚ) : Nat → List Nat → List Nat → List (Nat × Nat)
  | 0, _, _ => []
  | fuel + 1, tree, rest =>
    match pickEdge w (tree.flatMap (fun i => rest.map (fun j => (i, j)))) with
    | none => []
    | some (i, j) =>
      (i, j) :: primAux w fuel (tree ++ [j]) (rest.filter (fun x => x ≠ j))

/-- Modelled from the spec: minimum spanning tree of the complete
mutual-reachability graph on `n` canonical points, built by Prim's
algorithm from vertex 0 with ties between equal-weight candidate edges
broken by point index. -/
def mstEdges (w : Nat × Nat → ℚ) (n : Nat) : List (Nat × Nat) :=
  if n = 0 then [] else primAux w n [0] ((List.range n).filter (fun x => x ≠ 0))

/-- Neighbours of vertex `i` along the given edges. -/
def nbrs (edges : List (Nat × Nat)) (i : Nat) : List Nat :=
  edges.filterMap (fun e =>
    if e.1 = i then some e.2 else if e.2 = i then some e.1 else none)

/-- One round of neighbour expansion of a vertex set. -/
def expand (edges : List (Nat × Nat)) (c : List Nat) : List Nat :=
  (c ++ c.flatMap (nbrs edges)).dedup

/-- Reachability closure by fuelled iteration of `expand`. -/
def closure (edges : List (Nat × Nat)) : Nat → List Nat → List Nat
  | 0, c => c
  | fuel + 1, c => closure edges fuel (expand edges c)

/-- Connected component of vertex `i`, listed in increasing index order. -/
def componentOf (edges : List (Nat × Nat)) (n i : Nat) : List Nat :=
  List.insertionSort (· ≤ ·) (closure edges n [i])

/-- All distinct components of the graph on vertices `0, …, n-1`. -/
def componentsOf (edges : List (Nat × Nat)) (n : Nat) : List (List Nat) :=
  ((List.range n).map (componentOf edges n)).dedup

/-- The MST edges surviving the cut at density threshold `eps` (the
heavier edges are the ones removed). -/
def cutEdges (w : Nat × Nat → ℚ) (edges : List (Nat × Nat)) (eps : ℚ) :
    List (Nat × Nat) :=
  edges.filter (fun e => w e ≤ eps)

/-- Modelled from the spec: the flat clustering at threshold `eps` —
components of the cut MST, keeping only those with at least
`min_cluster_size` members. -/
def clustersAt (mcs : Nat) (w : Nat × Nat → ℚ) (edges : List (Nat × Nat))
    (n : Nat) (eps : ℚ) : List (List Nat) :=
  (componentsOf (cutEdges w edges eps) n).filter (fun c => mcs ≤ c.length)

/-- The candidate density thresholds: the distinct MST edge weights in
increasing order. -/
def candidateEps (w : Nat × Nat → ℚ) (edges : List (Nat × Nat)) : List ℚ :=
  List.insertionSort (· ≤ ·) ((edges.map w).dedup)

/-- Modelled stability of a flat clustering: the number of clustered
points. -/
def clusteringScore (cs : List (List Nat)) : Nat := (cs.map List.length).sum

/-- The first clustering of maximal score in a candidate list. -/
def pickBest : List (List (List Nat)) → List (List Nat)
  | [] => []
  | c :: cs => cs.foldl (fun b f => if clusteringScore b < clusteringScore f then f else b) c

/-- Modelled from the spec: stability-based flat-cluster selection — among
the flat cuts at each candidate threshold, keep those compatible with
`allow_single_cluster`, and select one of maximal modelled stability
(lowest threshold on ties); if no valid clustering exists the result is
noise-only, with zero clusters, not an error. -/
def selectClustering (cl : HDBSCANClusterer) (w : Nat × Nat → ℚ)
    (edges : List (Nat × Nat)) (n : Nat) : List (List Nat) :=
  pickBest (((candidateEps w edges).map
      (clustersAt cl.min_cluster_size w edges n)).filter
    (fun cs => cl.allow_single_cluster || cs.length != 1))

/-- The clusters of an already-canonicalised point list, as index lists. -/
def clusterIndices (cl : HDBSCANClusterer) (cs : List Vec3) : List (List Nat) :=
  selectClustering cl (edgeW cs cl.min_cluster_size)
    (mstEdges (edgeW cs cl.min_cluster_size) cs.length) cs.length

/-- Modelled from the spec: a cluster — its member points and their
centroid. -/
structure Cluster where
  members : List Vec3
  centroid : Vec3
deriving DecidableEq

/-- Sum of a list of vectors. -/
def vsum (ps : List Vec3) : Vec3 := ps.foldl vadd (0, 0, 0)

/-- Modelled from the spec: centroid — the unweighted arithmetic mean of
the member coordinates. -/
def centroidOf (ps : List Vec3) : Vec3 := smul (1 / (ps.length : ℚ)) (vsum ps)

/-- The clusters of an already-canonicalised point list. -/
def clustersOfCanon (cl : HDBSCANClusterer) (cs : List Vec3) : List Cluster :=
  (clusterIndices cl cs).map (fun idxs =>
    ⟨idxs.map (getPt cs), centroidOf (idxs.map (getPt cs))⟩)

/-- Modelled from the spec: the DensityClusterer — canonicalise the input
point set, then run mutual-reachability MST clustering with
stability-based flat extraction. -/
def HDBSCANClusterer.clusters (cl : HDBSCANClusterer) (ps : List Vec3) :
    List Cluster :=
  clustersOfCanon cl (canon ps)

/-- Modelled from the spec: the noise set — the points left unassigned by
the selected clustering. -/
def noisePoints (cl : HDBSCANClusterer) (ps : List Vec3) : List Vec3 :=
  (List.range (canon ps).length).filterMap (fun i =>
    if ((clusterIndices cl (canon ps)).flatMap id).contains i then none
    else some (getPt (canon ps) i))

/-! ## Fitting and pipelines (§4.3 failure contract, §4.4) -/

/-- Modelled from the spec: clustering one sample —
`ConfigurationError` iff `min_cluster_size < 1` or `min_cluster_size`
exceeds the point count; otherwise returns the pair (centres, clustered
points), where the clustered points are stored only when `store_labels`
is on (with the noise set appended when `noise` is on).  The flag does not
enter the clustering itself. -/
def fitSample (cl : HDBSCANClusterer) (ps : List Vec3)
    (store_labels noise : Bool) : Except PeptError (List Vec3 × List Vec3) :=
  if cl.min_cluster_size < 1 ∨ ps.length < cl.min_cluster_size then
    .error .ConfigurationError
  else
    .ok ((cl.clusters ps).map Cluster.centroid,
      if store_labels then
        (cl.clusters ps).flatMap Cluster.members ++
          (if noise then noisePoints cl ps else [])
      else [])

/-- Modelled from the spec: a PointDataset — ordered points together with
its own re-settable `sample_size` and `overlap`, mirroring the line
dataset so it can be re-windowed for a further pass. -/
structure PointData where
  points : List Vec3
  sample_size : Nat
  overlap : Nat
deriving DecidableEq

/-- Re-windowing a point dataset only replaces its `sample_size` and
`overlap`. -/
def rewindow (pd : PointData) (s o : Nat) : PointData := ⟨pd.points, s, o⟩

/-- Cluster each sample in order, aborting on the first
`ConfigurationError`. -/
def fitSamples (cl : HDBSCANClusterer) (sl nz : Bool) :
    List (List Vec3) → Except PeptError (List (List Vec3 × List Vec3))
  | [] => .ok []
  | smp :: rest =>
    match fitSample cl smp sl nz with
    | .error e => .error e
    | .ok r =>
      match fitSamples cl sl nz rest with
      | .error e => .error e
      | .ok rs => .ok (r :: rs)

/-- Modelled from the spec: `HDBSCANClusterer.fit_cutpoints` — validate
the configuration first (§7 fail fast: `min_cluster_size` must be at least
1 and at most the per-sample point count, before any sample is touched),
then window the input point dataset (raw cutpoints or a re-windowed
first-pass centres dataset alike), cluster every sample, and return the
pair of the aggregated centres dataset and the aggregated clustered-points
dataset; the second component is present even when `store_labels` is
off. -/
def fit_cutpoints (cl : HDBSCANClusterer) (pd : PointData) (sl nz : Bool) :
    Except PeptError (PointData × PointData) :=
  if cl.min_cluster_size < 1 ∨ pd.sample_size < cl.min_cluster_size then
    .error .ConfigurationError
  else
    match samplesOf pd.points pd.sample_size pd.overlap with
    | .error e => .error e
    | .ok samples =>
      match fitSamples cl sl nz samples with
      | .error e => .error e
      | .ok rs => .ok (⟨rs.flatMap Prod.fst, 0, 0⟩, ⟨rs.flatMap Prod.snd, 0, 0⟩)

/-- Modelled from the spec: Pass1Pipeline — validate the configuration
first (§7 fail fast: an invalid `min_cluster_size` or windowing aborts
before any sample is processed), then window the LoR dataset, extract each
sample's cutpoints, cluster them, and aggregate the centres in sample
order. -/
def pass1 (lines : List Line3) (s o : Nat) (maxDist : ℚ)
    (cl : HDBSCANClusterer) (sl nz : Bool) : Except PeptError PointData :=
  if cl.min_cluster_size < 1 then .error .ConfigurationError
  else
    match samplesOf lines s o with
    | .error e => .error e
    | .ok samples =>
      match fitSamples cl sl nz
          (samples.map (fun smp => (extractCutpoints smp maxDist).map Cutpoint.point)) with
      | .error e => .error e
      | .ok rs => .ok ⟨rs.flatMap Prod.fst, 0, 0⟩

/-! ## Properties of the clusterer -/

theorem closure_zero (edges : List (Nat × Nat)) (c : List Nat) :
    closure edges 0 c = c := rfl

theorem closure_succ (edges : List (Nat × Nat)) (fuel : Nat) (c : List Nat) :
    closure edges (fuel + 1) c = closure edges fuel (expand edges c) := rfl

theorem primAux_zero (w : Nat × Nat → ℚ) (tree rest : List Nat) :
    primAux w 0 tree rest = [] := rfl

theorem primAux_succ (w : Nat × Nat → ℚ) (fuel : Nat) (tree rest : List Nat) :
    primAux w (fuel + 1) tree rest =
      match pickEdge w (tree.flatMap (fun i => rest.map (fun j => (i, j)))) with
      | none => []
      | some (i, j) =>
        (i, j) :: primAux w fuel (tree ++ [j]) (rest.filter (fun x => x ≠ j)) := rfl

/-- Concrete evaluation of the clusterer on two unit-separated points with
`min_cluster_size = 2`: one cluster holding both points. -/
theorem clusters_pair_eval :
    HDBSCANClusterer.clusters ⟨2, true⟩ [(0, 0, 0), ((0 : ℚ), (0 : ℚ), (1 : ℚ))] =
      [⟨[(0, 0, 0), ((0 : ℚ), (0 : ℚ), (1 : ℚ))], ((0 : ℚ), (0 : ℚ), (1 / 2 : ℚ))⟩] := by
  norm_num [HDBSCANClusterer.clusters, clustersOfCanon, clusterIndices, selectClustering,
    pickBest, candidateEps, clustersAt, componentsOf, componentOf, closure_zero, closure_succ,
    expand, nbrs, cutEdges, mstEdges, primAux_zero, primAux_succ, pickEdge, edgeLe, edgeW,
    mreach2, coreDist2, getPt, canon, ptLe, dist2, norm2, dot, vsub, vadd, smul, centroidOf,
    vsum, clusteringScore, List.insertionSort, List.orderedInsert, List.dedup, List.pwFilter,
    List.range_succ, List.getD, List.getLastD]

theorem edgeLe_refl (w : Nat × Nat → ℚ) (e : Nat × Nat) : edgeLe w e e :=
  Or.inr ⟨rfl, Or.inr ⟨rfl, le_rfl⟩⟩

theorem edgeLe_total (w : Nat × Nat → ℚ) (e f : Nat × Nat) :
    edgeLe w e f ∨ edgeLe w f e := by
  unfold edgeLe
  rcases lt_trichotomy (w e) (w f) with h | h | h
  · exact Or.inl (Or.inl h)
  · rcases Nat.lt_trichotomy e.1 f.1 with h1 | h1 | h1
    · exact Or.inl (Or.inr ⟨h, Or.inl h1⟩)
    · rcases Nat.le_total e.2 f.2 with h2 | h2
      · exact Or.inl (Or.inr ⟨h, Or.inr ⟨h1, h2⟩⟩)
      · exact Or.inr (Or.inr ⟨h.symm, Or.inr ⟨h1.symm, h2⟩⟩)
    · exact Or.inr (Or.inr ⟨h.symm, Or.inl h1⟩)
  · exact Or.inr (Or.inl h)

theorem edgeLe_trans (w : Nat × Nat → ℚ) (e f g : Nat × Nat)
    (hef : edgeLe w e f) (hfg : edgeLe w f g) : edgeLe w e g := by
  unfold edgeLe at *
  obtain h1 | ⟨e1, h1⟩ := hef <;> obtain g1 | ⟨f1, g1⟩ := hfg
  · exact Or.inl (h1.trans g1)
  · exact Or.inl (lt_of_lt_of_eq h1 f1)
  · exact Or.inl (lt_of_eq_of_lt e1 g1)
  · refine Or.inr ⟨e1.trans f1, ?_⟩
    obtain h2 | ⟨e2, h2⟩ := h1 <;> obtain g2 | ⟨f2, g2⟩ := g1
    · exact Or.inl (h2.trans g2)
    · exact Or.inl (lt_of_lt_of_eq h2 f2)
    · exact Or.inl (lt_of_eq_of_lt e2 g2)
    · exact Or.inr ⟨e2.trans f2, h2.trans g2⟩

theorem foldl_min_spec (w : Nat × Nat → ℚ) :
    ∀ (es : List (Nat × Nat)) (b : Nat × Nat),
      (es.foldl (fun b f => if edgeLe w b f then b else f) b = b ∨
        es.foldl (fun b f => if edgeLe w b f then b else f) b ∈ es) ∧
      edgeLe w (es.foldl (fun b f => if edgeLe w b f then b else f) b) b ∧
      ∀ f ∈ es, edgeLe w (es.foldl (fun b f => if edgeLe w b f then b else f) b) f := by
  intro es
  induction es with
  | nil => exact fun b => ⟨Or.inl rfl, edgeLe_refl w b, by simp⟩
  | cons hd tl ih =>
    intro b
    rw [List.foldl_cons]
    by_cases h : edgeLe w b hd
    · simp only [if_pos h]
      obtain ⟨hmem, hle, hall⟩ := ih b
      refine ⟨?_, hle, ?_⟩
      · rcases hmem with h' | h'
        · exact Or.inl h'
        · exact Or.inr (List.mem_cons_of_mem _ h')
      · intro f hf
        rcases List.mem_cons.1 hf with rfl | hf'
        · exact edgeLe_trans w _ b f hle h
        · exact hall f hf'
    · simp only [if_neg h]
      have hfb : edgeLe w hd b := (edgeLe_total w b hd).resolve_left h
      obtain ⟨hmem, hle, hall⟩ := ih hd
      refine ⟨?_, edgeLe_trans w _ hd b hle hfb, ?_⟩
      · rcases hmem with h' | h'
        · exact Or.inr (by rw [h']; exact List.mem_cons_self hd tl)
        · exact Or.inr (List.mem_cons_of_mem _ h')
      · intro f hf
        rcases List.mem_cons.1 hf with rfl | hf'
        · exact hle
        · exact hall f hf'

theorem pickEdge_min (w : Nat × Nat → ℚ) (es : List (Nat × Nat))
    (e : Nat × Nat) (h : pickEdge w es = some e) :
    e ∈ es ∧ ∀ f ∈ es, edgeLe w e f := by
  match es with
  | [] => exact absurd h (by simp [pickEdge])
  | b :: tl =>
    simp only [pickEdge, Option.some.injEq] at h
    obtain ⟨hmem, hle, hall⟩ := foldl_min_spec w tl b
    subst h
    refine ⟨?_, ?_⟩
    · rcases hmem with h' | h'
      · exact (by rw [h']; exact List.mem_cons_self b tl)
      · exact List.mem_cons_of_mem _ h'
    · intro f hf
      rcases List.mem_cons.1 hf with rfl | hf'
      · exact hle
      · exact hall f hf'

theorem foldl_choice {α : Type} (f : α → α → α)
    (hf : ∀ a b, f a b = a ∨ f a b = b) :
    ∀ (es : List α) (b : α), es.foldl f b = b ∨ es.foldl f b ∈ es := by
  intro es
  induction es with
  | nil => exact fun b => Or.inl rfl
  | cons hd tl ih =>
    intro b
    rw [List.foldl_cons]
    rcases hf b hd with h | h <;> rw [h]
    · rcases ih b with h' | h'
      · exact Or.inl h'
      · exact Or.inr (List.mem_cons_of_mem _ h')
    · rcases ih hd with h' | h'
      · exact Or.inr (by rw [h']; exact List.mem_cons_self hd tl)
      · exact Or.inr (List.mem_cons_of_mem _ h')

theorem pickBest_mem (cs : List (List (List Nat))) :
    pickBest cs = [] ∨ pickBest cs ∈ cs := by
  match cs with
  | [] => exact Or.inl rfl
  | c :: tl =>
    have h := foldl_choice
      (fun b f => if clusteringScore b < clusteringScore f then f else b)
      (fun a b => by
        by_cases h : clusteringScore a < clusteringScore b <;> simp [h]) tl c
    refine Or.inr ?_
    simp only [pickBest]
    rcases h with h | h
    · rw [h]; exact List.mem_cons_self c tl
    · exact List.mem_cons_of_mem _ h

/-- C3 — Every cluster produced by the density clusterer has at least
`min_cluster_size` member points: a smaller cluster never appears in the
output (and one with exactly `min_cluster_size` members is valid, as the
witness shows). -/
theorem min_cluster_size_invariant (cl : HDBSCANClusterer) (ps : List Vec3)
    (c : Cluster) (hc : c ∈ cl.clusters ps) :
    cl.min_cluster_size ≤ c.members.length := by
  unfold HDBSCANClusterer.clusters clustersOfCanon at hc
  obtain ⟨idxs, hidxs, rfl⟩ := List.mem_map.1 hc
  simp only [List.length_map]
  unfold clusterIndices selectClustering at hidxs
  rcases pickBest_mem
      ((((candidateEps (edgeW (canon ps) cl.min_cluster_size)
          (mstEdges (edgeW (canon ps) cl.min_cluster_size) (canon ps).length)).map
        (clustersAt cl.min_cluster_size (edgeW (canon ps) cl.min_cluster_size)
          (mstEdges (edgeW (canon ps) cl.min_cluster_size) (canon ps).length)
          (canon ps).length)).filter
        (fun cs => cl.allow_single_cluster || cs.length != 1))) with hempty | hmem
  · rw [hempty] at hidxs
    exact absurd hidxs (List.not_mem_nil _)
  · obtain ⟨eps, -, heq⟩ := List.mem_map.1 (List.mem_filter.1 hmem).1
    rw [← heq] at hidxs
    have := (List.mem_filter.1 hidxs).2
    simpa using this

/-- Witness for C3: a cluster with exactly `min_cluster_size = 2` members
is valid output, and satisfies the size bound. -/
theorem min_cluster_size_invariant_witness :
    (HDBSCANClusterer.mk 2 true).min_cluster_size ≤
      (Cluster.mk [(0, 0, 0), ((0 : ℚ), (0 : ℚ), (1 : ℚ))]
        ((0 : ℚ), (0 : ℚ), (1 / 2 : ℚ))).members.length :=
  min_cluster_size_invariant ⟨2, true⟩
    [(0, 0, 0), ((0 : ℚ), (0 : ℚ), (1 : ℚ))]
    (Cluster.mk [(0, 0, 0), ((0 : ℚ), (0 : ℚ), (1 : ℚ))]
      ((0 : ℚ), (0 : ℚ), (1 / 2 : ℚ)))
    (by rw [clusters_pair_eval]; exact List.mem_singleton_self _)

/-- C5 — Permuting the input point order does not change the clusterer's
output at all: the clusters and hence the centroid set are identical (so
in particular equal as unordered sets), because the clusterer
canonicalises its input order first. -/
theorem clustering_permutation_invariant (cl : HDBSCANClusterer)
    (ps qs : List Vec3) (h : ps.Perm qs) :
    cl.clusters ps = cl.clusters qs ∧
    (cl.clusters ps).map Cluster.centroid = (cl.clusters qs).map Cluster.centroid := by
  have hc : canon ps = canon qs := canon_perm_eq ps qs h
  unfold HDBSCANClusterer.clusters
  rw [hc]
  exact ⟨rfl, rfl⟩

/-- Witness for C5: swapping the order of two points leaves the cluster
list and centroid list unchanged. -/
theorem clustering_permutation_invariant_witness :
    HDBSCANClusterer.clusters ⟨1, false⟩ [((1 : ℚ), (0 : ℚ), (0 : ℚ)), (0, 0, 0)] =
      HDBSCANClusterer.clusters ⟨1, false⟩ [(0, 0, 0), ((1 : ℚ), (0 : ℚ), (0 : ℚ))] ∧
    (HDBSCANClusterer.clusters ⟨1, false⟩
        [((1 : ℚ), (0 : ℚ), (0 : ℚ)), (0, 0, 0)]).map Cluster.centroid =
      (HDBSCANClusterer.clusters ⟨1, false⟩
        [(0, 0, 0), ((1 : ℚ), (0 : ℚ), (0 : ℚ))]).map Cluster.centroid :=
  clustering_permutation_invariant ⟨1, false⟩
    [((1 : ℚ), (0 : ℚ), (0 : ℚ)), (0, 0, 0)]
    [(0, 0, 0), ((1 : ℚ), (0 : ℚ), (0 : ℚ))]
    (List.Perm.swap ((0 : ℚ), (0 : ℚ), (0 : ℚ)) ((1 : ℚ), (0 : ℚ), (0 : ℚ)) [])

/-- C4 — Cutpoint extraction and clustering are deterministic: running
either twice on the same input with the same parameters yields identical
results, and the MST construction breaks ties between equal-weight
candidate edges by point index — the selected edge is minimal in the
lexicographic (weight, index, index) order among all candidates. -/
theorem deterministic_extraction_and_clustering
    (s₁ s₂ : List Line3) (d₁ d₂ : ℚ) (ps₁ ps₂ : List Vec3)
    (cl : HDBSCANClusterer) (sl nz : Bool)
    (hs : s₁ = s₂) (hd : d₁ = d₂) (hp : ps₁ = ps₂) :
    extractWithCount s₁ d₁ = extractWithCount s₂ d₂ ∧
    fitSample cl ps₁ sl nz = fitSample cl ps₂ sl nz ∧
    (∀ (w : Nat × Nat → ℚ) (es : List (Nat × Nat)) (e : Nat × Nat),
      pickEdge w es = some e → e ∈ es ∧ ∀ f ∈ es,
        w e < w f ∨ (w e = w f ∧ (e.1 < f.1 ∨ (e.1 = f.1 ∧ e.2 ≤ f.2)))) := by
  subst hs; subst hd; subst hp
  exact ⟨rfl, rfl, fun w es e h => pickEdge_min w es e h⟩

/-- Witness for C4 at a concrete sample, point set and candidate edge
list. -/
theorem deterministic_extraction_and_clustering_witness :
    extractWithCount [⟨(0, 0, 0), (1, 0, 0)⟩] 1 =
      extractWithCount [⟨(0, 0, 0), (1, 0, 0)⟩] 1 ∧
    fitSample ⟨1, false⟩ [((0 : ℚ), (0 : ℚ), (0 : ℚ))] true true =
      fitSample ⟨1, false⟩ [((0 : ℚ), (0 : ℚ), (0 : ℚ))] true true ∧
    (∀ (w : Nat × Nat → ℚ) (es : List (Nat × Nat)) (e : Nat × Nat),
      pickEdge w es = some e → e ∈ es ∧ ∀ f ∈ es,
        w e < w f ∨ (w e = w f ∧ (e.1 < f.1 ∨ (e.1 = f.1 ∧ e.2 ≤ f.2)))) :=
  deterministic_extraction_and_clustering
    [⟨(0, 0, 0), (1, 0, 0)⟩] [⟨(0, 0, 0), (1, 0, 0)⟩] 1 1
    [((0 : ℚ), (0 : ℚ), (0 : ℚ))] [((0 : ℚ), (0 : ℚ), (0 : ℚ))]
    ⟨1, false⟩ true true rfl rfl rfl

/-! ## Configuration errors, flags and end-to-end scenarios -/

theorem fitSamples_centres (cl : HDBSCANClusterer) (nz : Bool) :
    ∀ samples : List (List Vec3),
      (fitSamples cl true nz samples).map (fun rs => rs.flatMap Prod.fst) =
        (fitSamples cl false nz samples).map (fun rs => rs.flatMap Prod.fst) := by
  intro samples
  induction samples with
  | nil => rfl
  | cons smp rest ih =>
    by_cases h : cl.min_cluster_size < 1 ∨ smp.length < cl.min_cluster_size
    · have e1 : fitSample cl smp true nz = .error .ConfigurationError := by
        unfold fitSample; rw [if_pos h]
      have e2 : fitSample cl smp false nz = .error .ConfigurationError := by
        unfold fitSample; rw [if_pos h]
      simp [fitSamples, e1, e2]
    · have e1 : fitSample cl smp true nz = .ok ((cl.clusters smp).map Cluster.centroid,
          (cl.clusters smp).flatMap Cluster.members ++
            (if nz then noisePoints cl smp else [])) := by
        unfold fitSample; rw [if_neg h]; simp
      have e2 : fitSample cl smp false nz =
          .ok ((cl.clusters smp).map Cluster.centroid, []) := by
        unfold fitSample; rw [if_neg h]; simp
      simp only [fitSamples, e1, e2]
      cases h1 : fitSamples cl true nz rest with
      | error e₁ =>
        cases h2 : fitSamples cl false nz rest with
        | error e₂ => cases e₁; cases e₂; rfl
        | ok rs₂ =>
          rw [h1, h2] at ih
          exact absurd ih (by simp [Except.map])
      | ok rs₁ =>
        cases h2 : fitSamples cl false nz rest with
        | error e₂ =>
          rw [h1, h2] at ih
          exact absurd ih (by simp [Except.map])
        | ok rs₂ =>
          rw [h1, h2] at ih
          simp only [Except.map, Except.ok.injEq] at ih
          simp [Except.map, ih]

/-- C8 — `store_labels` is a pure optimisation: with the flag off,
`fit_cutpoints` produces exactly the same centres dataset as with it on
(both for a whole dataset and per sample); the flag never enters the
clustering itself, so the assignment of points to centroids is
unchanged. -/
theorem store_labels_pure_optimization (cl : HDBSCANClusterer)
    (pd : PointData) (nz : Bool) :
    (fit_cutpoints cl pd true nz).map Prod.fst =
      (fit_cutpoints cl pd false nz).map Prod.fst ∧
    ∀ ps : List Vec3, (fitSample cl ps true nz).map Prod.fst =
      (fitSample cl ps false nz).map Prod.fst := by
  constructor
  · unfold fit_cutpoints
    by_cases hv : cl.min_cluster_size < 1 ∨ pd.sample_size < cl.min_cluster_size
    · rw [if_pos hv, if_pos hv]
    · rw [if_neg hv, if_neg hv]
      cases hs : samplesOf pd.points pd.sample_size pd.overlap with
      | error e => rfl
      | ok samples =>
        have ih := fitSamples_centres cl nz samples
        cases h1 : fitSamples cl true nz samples with
        | error e₁ =>
          cases h2 : fitSamples cl false nz samples with
          | error e₂ => cases e₁; cases e₂; simp [h1, h2]
          | ok rs₂ =>
            rw [h1, h2] at ih
            exact absurd ih (by simp [Except.map])
        | ok rs₁ =>
          cases h2 : fitSamples cl false nz samples with
          | error e₂ =>
            rw [h1, h2] at ih
            exact absurd ih (by simp [Except.map])
          | ok rs₂ =>
            rw [h1, h2] at ih
            simp only [Except.map, Except.ok.injEq] at ih
            simp [h1, h2, Except.map, ih]
  · intro ps
    unfold fitSample
    by_cases h : cl.min_cluster_size < 1 ∨ ps.length < cl.min_cluster_size
    · simp only [if_pos h]
    · simp only [if_neg h]
      simp [Except.map]

/-- C9 — End-to-end scenario B: 1000 LoRs windowed at `sample_size = 400`,
`overlap = 200` give 4 samples, and a 4-element first-pass centres dataset
re-windowed at `sample_size = 2`, `overlap = 1` gives exactly 3
second-pass samples. -/
theorem end_to_end_scenario_b :
    numberOfSamples 1000 400 200 = 4 ∧
    (windows (rewindow
        ⟨[(0, 0, 0), (1, 0, 0), (2, 0, 0), ((3 : ℚ), (0 : ℚ), (0 : ℚ))], 400, 200⟩
        2 1).points 2 1).length = 3 := by
  constructor
  · rw [numberOfSamples_eq 1000 400 200 (by norm_num)]
  · norm_num [windows, rewindow, numberOfSamples_eq 4 2 1 (by norm_num)]

theorem window_length_of_lt (xs : List α) (s o i : Nat) (h : o < s)
    (hi : i < numberOfSamples xs.length s o) : (window xs s o i).length = s := by
  rw [numberOfSamples_eq _ s o h] at hi
  have h1 : (i + 1) * (s - o) ≤ xs.length - o :=
    le_trans (Nat.mul_le_mul_right _ (Nat.succ_le_of_lt hi)) (Nat.div_mul_le_self _ _)
  rw [Nat.succ_mul i (s - o)] at h1
  simp only [window, List.length_take, List.length_drop]
  generalize hA : i * (s - o) = A at h1 ⊢
  omega

theorem fitSamples_ok (cl : HDBSCANClusterer) (sl nz : Bool) :
    ∀ samples : List (List Vec3),
      (∀ smp ∈ samples, ¬(cl.min_cluster_size < 1 ∨ smp.length < cl.min_cluster_size)) →
      ∃ rs, fitSamples cl sl nz samples = .ok rs := by
  intro samples
  induction samples with
  | nil => exact fun _ => ⟨[], rfl⟩
  | cons smp rest ih =>
    intro h
    obtain ⟨rs, hrs⟩ := ih (fun x hx => h x (List.mem_cons_of_mem _ hx))
    have hg := h smp (List.mem_cons_self _ _)
    refine ⟨((cl.clusters smp).map Cluster.centroid,
      if sl then (cl.clusters smp).flatMap Cluster.members ++
        (if nz then noisePoints cl smp else []) else []) :: rs, ?_⟩
    have hfit : fitSample cl smp sl nz = .ok ((cl.clusters smp).map Cluster.centroid,
        if sl then (cl.clusters smp).flatMap Cluster.members ++
          (if nz then noisePoints cl smp else []) else []) := by
      unfold fitSample; rw [if_neg hg]
    simp [fitSamples, hfit, hrs]

theorem fit_cutpoints_ok_of_valid (cl : HDBSCANClusterer) (pd : PointData)
    (sl nz : Bool) (h1 : 1 ≤ cl.min_cluster_size)
    (h2 : cl.min_cluster_size ≤ pd.sample_size)
    (h3 : pd.overlap < pd.sample_size) :
    ∃ centres clustered, fit_cutpoints cl pd sl nz = .ok (centres, clustered) := by
  have hv : ¬(cl.min_cluster_size < 1 ∨ pd.sample_size < cl.min_cluster_size) := by
    omega
  have hso : ¬(pd.overlap ≥ pd.sample_size ∨ pd.sample_size ≤ 0) := by omega
  have hsam : samplesOf pd.points pd.sample_size pd.overlap =
      .ok (windows pd.points pd.sample_size pd.overlap) := by
    unfold samplesOf; rw [if_neg hso]
  have hall : ∀ smp ∈ windows pd.points pd.sample_size pd.overlap,
      ¬(cl.min_cluster_size < 1 ∨ smp.length < cl.min_cluster_size) := by
    intro smp hsmp
    obtain ⟨i, hi, rfl⟩ := List.mem_map.1 hsmp
    have := window_length_of_lt pd.points pd.sample_size pd.overlap i h3
      (List.mem_range.1 hi)
    omega
  obtain ⟨rs, hrs⟩ := fitSamples_ok cl sl nz _ hall
  refine ⟨⟨rs.flatMap Prod.fst, 0, 0⟩, ⟨rs.flatMap Prod.snd, 0, 0⟩, ?_⟩
  unfold fit_cutpoints
  rw [if_neg hv]
  simp [hsam, hrs]

theorem fit_cutpoints_error_iff (cl : HDBSCANClusterer) (pd : PointData)
    (sl nz : Bool) :
    fit_cutpoints cl pd sl nz = .error .ConfigurationError ↔
      pd.overlap ≥ pd.sample_size ∨ pd.sample_size ≤ 0 ∨
      cl.min_cluster_size < 1 ∨ pd.sample_size < cl.min_cluster_size := by
  constructor
  · intro he
    by_contra hc
    push_neg at hc
    obtain ⟨g1, g2, g3, g4⟩ := hc
    obtain ⟨c, p, hok⟩ := fit_cutpoints_ok_of_valid cl pd sl nz (by omega) (by omega)
      (by omega)
    rw [hok] at he
    simp at he
  · intro hcond
    by_cases hv : cl.min_cluster_size < 1 ∨ pd.sample_size < cl.min_cluster_size
    · unfold fit_cutpoints
      rw [if_pos hv]
    · have hw : pd.overlap ≥ pd.sample_size ∨ pd.sample_size ≤ 0 := by omega
      have hs : samplesOf pd.points pd.sample_size pd.overlap =
          .error .ConfigurationError := by
        unfold samplesOf; rw [if_pos hw]
      unfold fit_cutpoints
      rw [if_neg hv, hs]

/-- C6 — `ConfigurationError` is raised exactly when `overlap ≥
sample_size` or `sample_size ≤ 0` (windowing) or `min_cluster_size < 1` or
`min_cluster_size` exceeds the point count (clustering): the windowing and
per-sample clustering error conditions are exact iffs, and in every such
case the pipeline aborts before any sample processing starts with no
partial output — `pass1` errors under an invalid windowing or
`min_cluster_size`, and `fit_cutpoints` errors precisely under the four
configuration conditions (in particular also on an empty dataset). -/
theorem configuration_error_fail_fast (lines : List Line3) (s o : Nat) (d : ℚ)
    (cl : HDBSCANClusterer) (ps : List Vec3) (pd : PointData) (sl nz : Bool) :
    (samplesOf lines s o = .error .ConfigurationError ↔ o ≥ s ∨ s ≤ 0) ∧
    (fitSample cl ps sl nz = .error .ConfigurationError ↔
      cl.min_cluster_size < 1 ∨ ps.length < cl.min_cluster_size) ∧
    (o ≥ s ∨ s ≤ 0 ∨ cl.min_cluster_size < 1 →
      pass1 lines s o d cl sl nz = .error .ConfigurationError) ∧
    (fit_cutpoints cl pd sl nz = .error .ConfigurationError ↔
      pd.overlap ≥ pd.sample_size ∨ pd.sample_size ≤ 0 ∨
      cl.min_cluster_size < 1 ∨ pd.sample_size < cl.min_cluster_size) := by
  refine ⟨?_, ?_, ?_, fit_cutpoints_error_iff cl pd sl nz⟩
  · unfold samplesOf
    split <;> rename_i hcond <;> simp [hcond] <;> omega
  · unfold fitSample
    split <;> rename_i hcond <;> simp [hcond] <;> omega
  · intro h
    unfold pass1
    by_cases hm : cl.min_cluster_size < 1
    · rw [if_pos hm]
    · rw [if_neg hm]
      have hw : o ≥ s ∨ s ≤ 0 := by omega
      have hs : samplesOf lines s o = .error .ConfigurationError := by
        unfold samplesOf; rw [if_pos hw]
      rw [hs]

/-- Witness for C6: a zero sample size aborts `pass1`, and an invalid
`min_cluster_size = 0` makes `fit_cutpoints` abort even on an empty
dataset, before any sample processing. -/
theorem configuration_error_fail_fast_witness :
    pass1 [] 0 0 1 ⟨1, false⟩ true true = .error .ConfigurationError ∧
    fit_cutpoints ⟨0, false⟩ ⟨[], 2, 1⟩ true true = .error .ConfigurationError :=
  ⟨(configuration_error_fail_fast [] 0 0 1 ⟨1, false⟩ [] ⟨[], 2, 1⟩ true true).2.2.1
      (Or.inr (Or.inl le_rfl)),
   (configuration_error_fail_fast [] 0 0 1 ⟨0, false⟩ [] ⟨[], 2, 1⟩ true true).2.2.2.mpr
      (Or.inr (Or.inr (Or.inl Nat.zero_lt_one)))⟩

/-- C10 — For every valid configuration and every combination of the
`store_labels` and `noise` flags, `fit_cutpoints` returns a pair (centres,
clustered points) — the second component exists even when labels are not
stored — and it accepts any point dataset, in particular a re-windowed
first-pass centres dataset, as its input. -/
theorem fit_cutpoints_returns_pair (cl : HDBSCANClusterer) (pd : PointData)
    (sl nz : Bool) (h1 : 1 ≤ cl.min_cluster_size)
    (h2 : cl.min_cluster_size ≤ pd.sample_size)
    (h3 : pd.overlap < pd.sample_size) :
    ∃ centres clustered, fit_cutpoints cl pd sl nz = .ok (centres, clustered) :=
  fit_cutpoints_ok_of_valid cl pd sl nz h1 h2 h3

/-- Witness for C10: fitting a re-windowed 4-point centres dataset with
both flags off returns a pair. -/
theorem fit_cutpoints_returns_pair_witness :
    ∃ centres clustered,
      fit_cutpoints ⟨2, true⟩
        (rewindow ⟨[(0, 0, 0), (0, 0, 1), (10, 0, 0),
          ((10 : ℚ), (0 : ℚ), (1 : ℚ))], 0, 0⟩ 2 1)
        false false = .ok (centres, clustered) :=
  fit_cutpoints_returns_pair ⟨2, true⟩
    (rewindow ⟨[(0, 0, 0), (0, 0, 1), (10, 0, 0),
      ((10 : ℚ), (0 : ℚ), (1 : ℚ))], 0, 0⟩ 2 1)
    false false (by decide) (by decide) (by decide)

end PeptML
